import Mathlib

/-!
# Verification of the folly fibers FiberManager core

A shallow embedding of `folly/experimental/fibers/FiberManager.h`: a
single-threaded cooperative task-execution engine.  The repository ships only
the class declaration (`FiberManager.h`); the out-of-line bodies live in
`FiberManager-inl.h`, which is not part of the sources.  Definitions marked
`Modelled from the spec:` therefore follow the specification's description of
those bodies; the remaining definitions (the free functions `onFiber` and
`runInMainContext`, the data members and their documented meaning) are taken
from the header itself.

Machine-level aspects (stack buffers, saved register contexts, the actual
`switchIn`/`switchOut` jumps) are represented by their observable effect: a
fiber's task is a small program (`Prog`) that runs until it completes,
suspends (`await`) or bounces to the main context (`runInMainContext`), and
the engine's observable actions are recorded in an event trace.
-/

namespace FollyFibers

/-- `FiberManager::Options` (FiberManager.h lines 55-88).  `stackSize` and
`debugRecordStackUsed` only influence stack memory, which is not modelled;
they are carried for completeness.  Defaults are the header's defaults. -/
structure Options where
  stackSize : Nat := 16 * 1024
  debugRecordStackUsed : Bool := false
  maxFibersPoolSize : Nat := 1000
deriving DecidableEq, Repr

/-- `folly::Try`, specialised to results modelled as `Nat`: either a value or
a captured exception (identified by a numeric code). -/
inductive Try where
  | val : Nat → Try
  | exn : Nat → Try
deriving DecidableEq, Repr

/-- The body of a task, as the engine can observe it.  A task runs on its
fiber's stack; it can finish normally (`ret v` / `retAcc`), finish by
throwing (`throwE e`), suspend via `await` (`awaitOp k`; on resumption the
accumulator holds the datum used to fulfill the promise), bounce to the main
context via `runInMainContext` (`runInMain v k`: the bounced function returns
`v`, which becomes the accumulator when the fiber continues with `k`), read or
write the fiber-local data cell, or submit a child task via `addTask`
(`spawnOp`) or `addTaskRemote` (`spawnRemoteOp`).  The accumulator models the
value most recently returned to the fiber. -/
inductive Prog where
  | ret : Nat → Prog
  | retAcc : Prog
  | throwE : Nat → Prog
  | awaitOp : Prog → Prog
  | runInMain : Nat → Prog → Prog
  | setLocalOp : Nat → Prog → Prog
  | readLocal : Prog → Prog
  | spawnOp : Prog → Prog → Prog
  | spawnRemoteOp : Prog → Prog → Prog
deriving DecidableEq, Repr

/-- Fiber state tag (spec section 3: `Invalid`, `NotStarted`, `Ready`,
`Awaiting`, `Yielded`).  `Yielded` never persists across an engine step in
this model because the loop immediately runs the deferred function and
re-enqueues the fiber as `Ready`. -/
inductive FiberState where
  | Invalid
  | NotStarted
  | Ready
  | Awaiting
  | Yielded
deriving DecidableEq, Repr

/-- Modelled from the spec: the `Fiber` class (its header is not in the
sources).  Spec section 3 lists: a state tag, the task functor (`prog`, the
remaining program of the task), the fiber-local data cell (`localData`), an
optional finally-continuation (`hasFinally`: whether the task was submitted
via `addTaskFinally`), and list hooks (represented by membership of the
engine's queues).  Model bookkeeping: `id` identifies the task occupying the
fiber (fresh per task), `pendingVal` is the datum delivered by the latest
wake / main-context bounce (the accumulator on resumption), and `tag`
carries the submission number of a not-yet-started `addTaskRemote` task, used
to observe start order. -/
structure Fiber where
  id : Nat
  state : FiberState
  prog : Prog
  localData : Nat
  pendingVal : Nat
  hasFinally : Bool
  tag : Option Nat
deriving DecidableEq, Repr

/-- `FiberManager::RemoteTask` (FiberManager.h lines 224-234): a type-erased
functor plus an optional copy of the submitting fiber's local data.  `tag` is
model bookkeeping: the submission number for tasks submitted through the
public `addTaskRemote` (used to observe start order). -/
structure RemoteTask where
  tag : Option Nat
  func : Prog
  localData : Option Nat
deriving DecidableEq, Repr

/-- Observable actions of the engine, in chronological order.
  * `taskStart fid tag` — the fiber's task began running (first `switchIn`).
  * `taskComplete fid t` — the task finished with result `t`.
  * `finallyRun fid t onMain` — the finally functor ran with `Try` `t`;
    `onMain` records whether no fiber was active at that point.
  * `exceptionCb fid e` — the manager's exception callback was invoked.
  * `waitFnRun fid onMain` — the function passed to `await` ran, receiving
    the suspended fiber `fid`; `onMain` as above.
  * `mainFnRun fid v onFiberObs` — the function handed to `runInMainContext`
    by fiber `fid` ran and returned `v`; `onFiberObs` is what `onFiber()`
    would have returned inside it. -/
inductive Event where
  | taskStart : Nat → Option Nat → Event
  | taskComplete : Nat → Try → Event
  | finallyRun : Nat → Try → Bool → Event
  | exceptionCb : Nat → Nat → Event
  | waitFnRun : Nat → Bool → Event
  | mainFnRun : Nat → Nat → Bool → Event
deriving DecidableEq, Repr

/-- The `FiberManager` state (FiberManager.h lines 236-331).
Fields named after the data members: `readyFibers` (line 245), `fibersPool`
(line 246), `fibersAllocated` / `fibersPoolSize` / `fibersActive` (lines
248-250), `activeFiber` (line 238), `isLoopScheduled` (line 255),
`remoteReadyQueue` (line 322), `remoteTaskQueue` (lines 324-325), `options`
(line 293).  `awaitingFibers` holds the fibers currently suspended in
`Awaiting`: in the C++ they are detached and held only by their external
waker, but they must live somewhere for `remoteReadyInsert` to find them.
`trace`, `startedTags`, `nextId`, `nextTag` are model instrumentation:
the chronological event trace, the start order of tagged remote tasks, and
fresh-id/tag counters. -/
structure FM where
  options : Options
  readyFibers : List Fiber
  fibersPool : List Fiber
  awaitingFibers : List Fiber
  activeFiber : Option Nat
  fibersAllocated : Nat
  fibersPoolSize : Nat
  fibersActive : Nat
  isLoopScheduled : Bool
  remoteTaskQueue : List RemoteTask
  remoteReadyQueue : List Fiber
  trace : List Event
  startedTags : List Nat
  nextId : Nat
  nextTag : Nat
deriving DecidableEq, Repr

/-- A freshly constructed manager: all counters zero, all queues empty
(FiberManager constructor, modelled from the header's member initialisers). -/
def initFM (opts : Options) : FM :=
  { options := opts
    readyFibers := []
    fibersPool := []
    awaitingFibers := []
    activeFiber := none
    fibersAllocated := 0
    fibersPoolSize := 0
    fibersActive := 0
    isLoopScheduled := false
    remoteTaskQueue := []
    remoteReadyQueue := []
    trace := []
    startedTags := []
    nextId := 0
    nextTag := 0 }

/-- `FiberManager::hasActiveFiber` (FiberManager.h lines 203-206):
"true if running activeFiber_ is not nullptr". -/
def hasActiveFiber (s : FM) : Bool := s.activeFiber.isSome

/-- The free function `onFiber` (FiberManager.h lines 336-339):
`auto fm = getFiberManagerUnsafe(); return fm ? fm->hasActiveFiber() : false;`
The thread-local `currentFiberManager_` is passed explicitly as an
`Option FM`. -/
def onFiber : Option FM → Bool
  | none => false
  | some fm => hasActiveFiber fm

/-- Runs a task program on the fiber stack until it completes, suspends, or
bounces to the main context.  `outcome` is how the run ended; `localData` the
fiber-local cell afterwards; `localSpawns` / `remoteSpawns` the child tasks
submitted during the run, each paired with the copy of the fiber-local data
taken at the submission call (FiberManager.h lines 182-190: "When new task is
scheduled via addTask / addTaskRemote from a fiber its fiber-local context is
copied into the new fiber"). -/
inductive Outcome where
  | completed : Try → Outcome
  | awaiting : Prog → Outcome
  | yielded : Nat → Prog → Outcome
deriving DecidableEq, Repr

structure RunResult where
  outcome : Outcome
  localData : Nat
  localSpawns : List (Prog × Nat)
  remoteSpawns : List (Prog × Nat)
deriving DecidableEq, Repr

/-- Modelled from the spec: one uninterrupted run of a fiber, from `switchIn`
to the next `switchOut` (spec section 4.2: the trampoline invokes the task,
captures a thrown exception into the exception slot, and the fiber returns
control by completing, suspending via `await`, or yielding for a
main-context bounce).  `acc` is the accumulator (the value delivered by the
preceding wake or bounce), `l` the fiber-local data. -/
def runProg : Prog → Nat → Nat → RunResult
  | .ret v, _, l => ⟨.completed (.val v), l, [], []⟩
  | .retAcc, acc, l => ⟨.completed (.val acc), l, [], []⟩
  | .throwE e, _, l => ⟨.completed (.exn e), l, [], []⟩
  | .awaitOp k, _, l => ⟨.awaiting k, l, [], []⟩
  | .runInMain v k, _, l => ⟨.yielded v k, l, [], []⟩
  | .setLocalOp v k, acc, _ => runProg k acc v
  | .readLocal k, _, l => runProg k l l
  | .spawnOp c k, acc, l =>
      let r := runProg k acc l
      { r with localSpawns := (c, l) :: r.localSpawns }
  | .spawnRemoteOp c k, acc, l =>
      let r := runProg k acc l
      { r with remoteSpawns := (c, l) :: r.remoteSpawns }

/-- Modelled from the spec: `FiberManager::getFiber` (declared FiberManager.h
line 308, body not in the sources; spec section 4.3): pop a pooled fiber, or
allocate a new one incrementing `fibersAllocated`; either way the fiber
becomes active.  The returned fiber is given a fresh task identity. -/
def getFiber (s : FM) : Fiber × FM :=
  match s.fibersPool with
  | [] =>
      (⟨s.nextId, .Invalid, .ret 0, 0, 0, false, none⟩,
       { s with fibersAllocated := s.fibersAllocated + 1
                fibersActive := s.fibersActive + 1
                nextId := s.nextId + 1 })
  | f :: rest =>
      ({ f with id := s.nextId },
       { s with fibersPool := rest
                fibersPoolSize := s.fibersPoolSize - 1
                fibersActive := s.fibersActive + 1
                nextId := s.nextId + 1 })

/-- Modelled from the spec: `Fiber::prepare` (spec section 4.2): binds a task
functor onto a pooled/new fiber and transitions it to `NotStarted`. -/
def prepare (f : Fiber) (p : Prog) (ld : Nat) (fin : Bool) (tag : Option Nat) :
    Fiber :=
  { f with state := .NotStarted, prog := p, localData := ld, pendingVal := 0
           hasFinally := fin, tag := tag }

/-- Modelled from the spec: `release` of a completed fiber to the pool (spec
section 4.3): push iff `size < maxFibersPoolSize`, else destroy it and
decrement `fibersAllocated`.  `Fiber::reset` clears the task, local data and
exception slot and returns the state to `Invalid`. -/
def releaseFiber (f : Fiber) (s : FM) : FM :=
  if s.fibersPoolSize < s.options.maxFibersPoolSize then
    { s with fibersPool := s.fibersPool ++
               [{ f with state := .Invalid, prog := .ret 0, localData := 0
                         pendingVal := 0, hasFinally := false, tag := none }]
             fibersPoolSize := s.fibersPoolSize + 1
             fibersActive := s.fibersActive - 1 }
  else
    { s with fibersAllocated := s.fibersAllocated - 1
             fibersActive := s.fibersActive - 1 }

/-- Modelled from the spec: `FiberManager::addTask` / `addTaskFinally`
(declared FiberManager.h lines 135-136 and 168-169; spec section 4.6):
acquire a fiber, prepare it with the task, push it onto the ready queue and
ensure a loop is scheduled.  `fin` records whether a finally functor was
attached. -/
def addTaskImpl (p : Prog) (fin : Bool) (s : FM) : FM :=
  let (f, s1) := getFiber s
  { s1 with readyFibers := s1.readyFibers ++ [prepare f p 0 fin none]
            isLoopScheduled := true }

def addTask (p : Prog) (s : FM) : FM := addTaskImpl p false s

def addTaskFinally (p : Prog) (s : FM) : FM := addTaskImpl p true s

/-- Modelled from the spec: `FiberManager::addTaskRemote` (declared
FiberManager.h lines 156-157; spec section 4.6): create a `RemoteTask`
carrying the functor (submitted from another thread, hence no fiber-local
snapshot) and push it onto the lock-free `remoteTaskQueue`, which is FIFO for
a single producer (spec section 5, Ordering).  The submission number
`nextTag` is model instrumentation to observe start order. -/
def addTaskRemote (p : Prog) (s : FM) : FM :=
  { s with remoteTaskQueue := s.remoteTaskQueue ++ [⟨some s.nextTag, p, none⟩]
           nextTag := s.nextTag + 1 }

/-- Modelled from the spec: `FiberManager::remoteReadyInsert` (declared
FiberManager.h line 330; spec sections 4.7 and 6): the external waker fulfills
the promise of an `Awaiting` fiber with datum `v` and hands the fiber to the
`remoteReadyQueue`.  Unknown ids are ignored. -/
def remoteReadyInsert (fid : Nat) (v : Nat) (s : FM) : FM :=
  match removeById fid s.awaitingFibers with
  | none => s
  | some (f, rest) =>
      { s with awaitingFibers := rest
               remoteReadyQueue := s.remoteReadyQueue ++
                 [{ f with state := .Ready, pendingVal := v }] }
where
  /-- Remove the first fiber with the given id from a list. -/
  removeById (fid : Nat) : List Fiber → Option (Fiber × List Fiber)
    | [] => none
    | f :: rest =>
        if f.id = fid then some (f, rest)
        else match removeById fid rest with
          | none => none
          | some (g, rest2) => some (g, f :: rest2)

/-- Model bookkeeping at the first `switchIn` of a task: record the
`taskStart` event (only when the fiber has never run, i.e. is `NotStarted`)
and, for a tagged remote submission, append its tag to the observed start
order. -/
def logStart (f : Fiber) (s : FM) : FM :=
  let s1 :=
    if f.state = FiberState.NotStarted then
      { s with trace := s.trace ++ [Event.taskStart f.id f.tag] }
    else s
  match f.tag with
  | none => s1
  | some t => { s1 with startedTags := s1.startedTags ++ [t] }

/-- Modelled from the spec: `addTask` calls made by the running fiber (spec
sections 4.5-4.6): each child acquires a fiber, is prepared with the copied
fiber-local data snapshot, and is pushed onto the ready queue. -/
def applySpawns : List (Prog × Nat) → FM → FM
  | [], s => s
  | (c, l) :: rest, s =>
      let (g, s1) := getFiber s
      applySpawns rest
        { s1 with readyFibers := s1.readyFibers ++ [prepare g c l false none] }

/-- Modelled from the spec: `addTaskRemote` calls made by the running fiber
(spec section 4.6): each child becomes a `RemoteTask` carrying the snapshot
of the submitter's fiber-local data. -/
def applyRemoteSpawns (spawns : List (Prog × Nat)) (s : FM) : FM :=
  { s with remoteTaskQueue := s.remoteTaskQueue ++
      spawns.map (fun cl => ⟨none, cl.1, some cl.2⟩) }

/-- Modelled from the spec: completion handling on the main context (spec
section 4.5 step 4, section 4.8): run the finally functor with the `Try` if
one was attached; otherwise invoke the exception callback if the task threw;
then reset the fiber and release it to the pool. -/
def completeFiber (f : Fiber) (t : Try) (s : FM) : FM :=
  let s1 := { s with trace := s.trace ++ [Event.taskComplete f.id t] }
  let s2 :=
    if f.hasFinally then
      { s1 with trace := s1.trace ++
          [Event.finallyRun f.id t (!(hasActiveFiber s1))] }
    else
      match t with
      | .exn e => { s1 with trace := s1.trace ++ [Event.exceptionCb f.id e] }
      | .val _ => s1
  releaseFiber f s2

/-- Modelled from the spec: `Awaiting` handling on the main context (spec
sections 4.5 and 4.7): run `awaitFunc_` exactly once, passing the suspended
fiber; the fiber stays detached (here: in `awaitingFibers`) until an external
wake. -/
def suspendFiber (f : Fiber) (k : Prog) (ld : Nat) (s : FM) : FM :=
  { s with trace := s.trace ++ [Event.waitFnRun f.id (!(hasActiveFiber s))]
           awaitingFibers := s.awaitingFibers ++
             [{ f with state := .Awaiting, prog := k, localData := ld
                       tag := none }] }

/-- Modelled from the spec: `Yielded` handling on the main context (spec
section 4.5 step 4): run the deferred `immediateFunc_` on the main stack —
`onFiber()` observes no active fiber there — deliver its return value to the
fiber, and push the fiber back onto the ready queue. -/
def yieldFiber (f : Fiber) (v : Nat) (k : Prog) (ld : Nat) (s : FM) : FM :=
  { s with trace := s.trace ++ [Event.mainFnRun f.id v (hasActiveFiber s)]
           readyFibers := s.readyFibers ++
             [{ f with state := .Ready, prog := k, localData := ld
                       pendingVal := v, tag := none }] }

/-- Modelled from the spec: `FiberManager::runReadyFiber` (declared
FiberManager.h line 329; spec section 4.5 steps 3-4).  The fiber has already
been popped from the ready queue.  `switchIn` transfers control to the fiber
stack; the run produces an outcome; `switchOut` returns control to the main
context, after which the children submitted during the run are enqueued and
the outcome is dispatched. -/
def runReadyFiber (f : Fiber) (s : FM) : FM :=
  let s0 := logStart f s
  let s1 := { s0 with activeFiber := some f.id }
  let r := runProg f.prog f.pendingVal f.localData
  let s2 := { s1 with activeFiber := none }
  let s3 := applyRemoteSpawns r.remoteSpawns (applySpawns r.localSpawns s2)
  match r.outcome with
  | .completed t => completeFiber f t s3
  | .awaiting k => suspendFiber f k r.localData s3
  | .yielded v k => yieldFiber f v k r.localData s3

/-- Modelled from the spec: promotion of drained `RemoteTask`s (spec section
4.5 step 1): acquire a fiber for each, install the task and the fiber-local
snapshot if present, and push it onto the ready queue. -/
def promoteRemoteTasks : List RemoteTask → FM → FM
  | [], s => s
  | t :: ts, s =>
      let (g, s1) := getFiber s
      promoteRemoteTasks ts
        { s1 with readyFibers := s1.readyFibers ++
            [prepare g t.func (t.localData.getD 0) false t.tag] }

/-- Modelled from the spec: drain of the `remoteTaskQueue` (spec sections 4.4
and 4.5 step 1): batch-move the whole lock-free list, then promote each
record in FIFO order. -/
def drainRemoteTasks (s : FM) : FM :=
  promoteRemoteTasks s.remoteTaskQueue { s with remoteTaskQueue := [] }

/-- Modelled from the spec: drain of the `remoteReadyQueue` (spec section 4.5
step 2): push each woken fiber onto the ready queue, in FIFO order. -/
def drainRemoteReady (s : FM) : FM :=
  { s with readyFibers := s.readyFibers ++ s.remoteReadyQueue
           remoteReadyQueue := [] }

/-- Modelled from the spec: the scheduler loop body (spec section 4.5): each
iteration drains the two remote queues into the ready queue, then pops and
runs one ready fiber; the loop ends when the ready queue is empty after the
drains.  `fuel` bounds the number of iterations; `none` means the bound was
hit (tasks can spawn tasks forever, so the loop need not terminate). -/
def loopGo : Nat → FM → Option FM
  | 0, _ => none
  | fuel + 1, s =>
      let s1 := drainRemoteReady (drainRemoteTasks s)
      match s1.readyFibers with
      | [] => some s1
      | f :: rest => loopGo fuel (runReadyFiber f { s1 with readyFibers := rest })

/-- Modelled from the spec: `FiberManager::loopUntilNoReady` (declared
FiberManager.h lines 109-114: "Keeps running ready tasks until the list of
ready tasks is empty.  @return True if there are any waiting tasks
remaining."; spec sections 4.5 and 6: the loop flag is cleared before
draining).  The return value reports whether fibers owned by the scheduler
remain — after the drain these are exactly the blocked ones
(`fibersActive` counts "running or blocked fibers", FiberManager.h line
250). -/
def loopUntilNoReady (fuel : Nat) (s : FM) : Option (Bool × FM) :=
  (loopGo fuel { s with isLoopScheduled := false }).map
    (fun s2 => (decide (0 < s2.fibersActive), s2))

/-- `FiberManager::hasTasks` (declared FiberManager.h lines 116-119).
Modelled from the spec: "`hasTasks()` — `fibersActive > 0 ∨ either remote
queue non-empty`" (spec section 4.6). -/
def hasTasks (s : FM) : Bool :=
  decide (0 < s.fibersActive) || !s.remoteTaskQueue.isEmpty ||
    !s.remoteReadyQueue.isEmpty

/-- The free function `runInMainContext` (FiberManager.h lines 387-395): with
no manager bound the function is invoked directly; with a manager bound it
delegates to `FiberManager::runInMainContext`, which — modelled from the spec
(section 4.5, Re-entrancy) — invokes the function directly when no fiber is
active.  The on-fiber path suspends and is modelled by `Prog.runInMain`.
The user function receives what `onFiber()` returns at the point it runs. -/
def runInMainContextDirect (fm : Option FM) (func : Bool → Nat) : Nat :=
  match fm with
  | none => func (onFiber none)
  | some m => func (onFiber (some m))

/-- All fibers currently owned by the scheduler: ready, suspended in
`Awaiting`, or woken but not yet drained. -/
def ownedFibers (s : FM) : List Fiber :=
  s.readyFibers ++ s.awaitingFibers ++ s.remoteReadyQueue

/-- A public operation on the engine, performed on the owning thread's main
context (`opWake` may also come from another thread; the op list is the
serialisation the lock-free queues provide). -/
inductive Op where
  | opAddTask : Prog → Op
  | opAddTaskFinally : Prog → Op
  | opAddTaskRemote : Prog → Op
  | opWake : Nat → Nat → Op
  | opLoop : Nat → Op
deriving DecidableEq, Repr

def applyOp : Op → FM → Option FM
  | .opAddTask p, s => some (addTask p s)
  | .opAddTaskFinally p, s => some (addTaskFinally p s)
  | .opAddTaskRemote p, s => some (addTaskRemote p s)
  | .opWake fid v, s => some (remoteReadyInsert fid v s)
  | .opLoop fuel, s => (loopUntilNoReady fuel s).map Prod.snd

/-- Run a sequence of public operations; `none` when a loop ran out of
fuel. -/
def runOps : List Op → FM → Option FM
  | [], s => some s
  | op :: ops, s => (applyOp op s).bind (runOps ops)

/-! ## Well-formedness invariant

`WFoff c s` is the engine's counter/queue invariant, with `c` fibers checked
out of the queues (the scheduler holds `c = 1` while running a popped fiber;
public states have `c = 0`). -/

def WFoff (c : Nat) (s : FM) : Prop :=
  s.fibersAllocated = s.fibersActive + s.fibersPoolSize ∧
  s.fibersPoolSize = s.fibersPool.length ∧
  s.fibersPoolSize ≤ s.options.maxFibersPoolSize ∧
  s.fibersActive = (s.readyFibers.length + s.awaitingFibers.length +
    s.remoteReadyQueue.length) + c ∧
  ∀ f ∈ s.awaitingFibers, f.state = FiberState.Awaiting

/-- The invariant of a quiescent engine state. -/
def WF (s : FM) : Prop := WFoff 0 s

theorem wf_initFM (opts : Options) : WF (initFM opts) := by
  refine ⟨rfl, rfl, by simp [initFM], rfl, by simp [initFM]⟩

theorem wfoff_getFiber_ready (c : Nat) (s : FM) (g : Fiber) (h : WFoff c s) :
    WFoff c { (getFiber s).2 with
              readyFibers := (getFiber s).2.readyFibers ++ [g] } := by
  obtain ⟨h1, h2, h3, h4, h5⟩ := h
  unfold getFiber
  cases hp : s.fibersPool with
  | nil => exact ⟨by simp; omega, by simp [h2, hp], by simpa using h3,
      by simp; omega, by simpa using h5⟩
  | cons f rest =>
      have h2' : s.fibersPoolSize = rest.length + 1 := by
        rw [h2, hp]; rfl
      refine ⟨by simp; omega, by simp [h2'], by simp; omega, by simp; omega,
        by simpa using h5⟩

theorem wf_addTaskImpl (p : Prog) (fin : Bool) (s : FM) (h : WF s) :
    WF (addTaskImpl p fin s) := by
  have h2 := wfoff_getFiber_ready 0 s
    (prepare (getFiber s).1 p 0 fin none) h
  unfold addTaskImpl
  obtain ⟨a1, a2, a3, a4, a5⟩ := h2
  exact ⟨a1, a2, a3, a4, a5⟩

theorem wf_addTaskRemote (p : Prog) (s : FM) (h : WF s) :
    WF (addTaskRemote p s) := by
  obtain ⟨h1, h2, h3, h4, h5⟩ := h
  exact ⟨h1, h2, h3, h4, h5⟩

theorem removeById_length (fid : Nat) :
    ∀ (l : List Fiber) (g : Fiber) (rest : List Fiber),
      remoteReadyInsert.removeById fid l = some (g, rest) →
      l.length = rest.length + 1
  | [], _, _, h => by simp [remoteReadyInsert.removeById] at h
  | f :: l, g, rest, h => by
      unfold remoteReadyInsert.removeById at h
      split at h
      · cases h; simp
      · revert h
        cases hr : remoteReadyInsert.removeById fid l with
        | none => intro h; cases h
        | some pr =>
            intro h
            cases h
            have := removeById_length fid l pr.1 pr.2 (by rw [hr])
            simp [this]

theorem removeById_mem (fid : Nat) :
    ∀ (l : List Fiber) (g : Fiber) (rest : List Fiber),
      remoteReadyInsert.removeById fid l = some (g, rest) →
      ∀ x ∈ rest, x ∈ l
  | [], _, _, h => by simp [remoteReadyInsert.removeById] at h
  | f :: l, g, rest, h => by
      unfold remoteReadyInsert.removeById at h
      split at h
      · cases h; intro x hx; exact List.mem_cons_of_mem _ hx
      · revert h
        cases hr : remoteReadyInsert.removeById fid l with
        | none => intro h; cases h
        | some pr =>
            intro h
            cases h
            intro x hx
            rcases List.mem_cons.mp hx with h2 | h2
            · simp [h2]
            · exact List.mem_cons_of_mem _
                (removeById_mem fid l pr.1 pr.2 (by rw [hr]) x h2)

theorem wf_remoteReadyInsert (fid v : Nat) (s : FM) (h : WF s) :
    WF (remoteReadyInsert fid v s) := by
  obtain ⟨h1, h2, h3, h4, h5⟩ := h
  unfold remoteReadyInsert
  cases hr : remoteReadyInsert.removeById fid s.awaitingFibers with
  | none => exact ⟨h1, h2, h3, h4, h5⟩
  | some pr =>
      have hlen := removeById_length fid s.awaitingFibers pr.1 pr.2
        (by rw [hr])
      have hmem := removeById_mem fid s.awaitingFibers pr.1 pr.2
        (by rw [hr])
      refine ⟨h1, h2, h3, by simp; omega, ?_⟩
      intro f hf
      exact h5 f (hmem f hf)

theorem wfoff_logStart (c : Nat) (f : Fiber) (s : FM) (h : WFoff c s) :
    WFoff c (logStart f s) := by
  obtain ⟨h1, h2, h3, h4, h5⟩ := h
  unfold logStart
  split <;> split <;> exact ⟨h1, h2, h3, h4, h5⟩

theorem wfoff_applySpawns (c : Nat) :
    ∀ (sp : List (Prog × Nat)) (s : FM), WFoff c s → WFoff c (applySpawns sp s)
  | [], s, h => h
  | (p, l) :: rest, s, h => by
      unfold applySpawns
      exact wfoff_applySpawns c rest _
        (wfoff_getFiber_ready c s (prepare (getFiber s).1 p l false none) h)

theorem wfoff_applyRemoteSpawns (c : Nat) (sp : List (Prog × Nat)) (s : FM)
    (h : WFoff c s) : WFoff c (applyRemoteSpawns sp s) := by
  obtain ⟨h1, h2, h3, h4, h5⟩ := h
  exact ⟨h1, h2, h3, h4, h5⟩

theorem wfoff_activeFiber (c : Nat) (a : Option Nat) (s : FM) (h : WFoff c s) :
    WFoff c { s with activeFiber := a } := by
  obtain ⟨h1, h2, h3, h4, h5⟩ := h
  exact ⟨h1, h2, h3, h4, h5⟩

theorem wfoff_trace (c : Nat) (tr : List Event) (s : FM) (h : WFoff c s) :
    WFoff c { s with trace := tr } := by
  obtain ⟨h1, h2, h3, h4, h5⟩ := h
  exact ⟨h1, h2, h3, h4, h5⟩

theorem wf_releaseFiber (f : Fiber) (s : FM) (h : WFoff 1 s) :
    WF (releaseFiber f s) := by
  obtain ⟨h1, h2, h3, h4, h5⟩ := h
  unfold releaseFiber
  split
  · exact ⟨by simp; omega, by simp [h2], by simp; omega, by simp; omega,
      by simpa using h5⟩
  · exact ⟨by simp; omega, h2, h3, by simp; omega, h5⟩

/-! ### Fields untouched by the individual engine steps -/

@[simp] theorem getFiber_options (s : FM) :
    (getFiber s).2.options = s.options := by
  unfold getFiber; cases s.fibersPool <;> rfl

@[simp] theorem getFiber_ils (s : FM) :
    (getFiber s).2.isLoopScheduled = s.isLoopScheduled := by
  unfold getFiber; cases s.fibersPool <;> rfl

@[simp] theorem getFiber_rtq (s : FM) :
    (getFiber s).2.remoteTaskQueue = s.remoteTaskQueue := by
  unfold getFiber; cases s.fibersPool <;> rfl

@[simp] theorem getFiber_rrq (s : FM) :
    (getFiber s).2.remoteReadyQueue = s.remoteReadyQueue := by
  unfold getFiber; cases s.fibersPool <;> rfl

@[simp] theorem getFiber_ready (s : FM) :
    (getFiber s).2.readyFibers = s.readyFibers := by
  unfold getFiber; cases s.fibersPool <;> rfl

@[simp] theorem getFiber_awaiting (s : FM) :
    (getFiber s).2.awaitingFibers = s.awaitingFibers := by
  unfold getFiber; cases s.fibersPool <;> rfl

@[simp] theorem getFiber_trace (s : FM) :
    (getFiber s).2.trace = s.trace := by
  unfold getFiber; cases s.fibersPool <;> rfl

@[simp] theorem getFiber_started (s : FM) :
    (getFiber s).2.startedTags = s.startedTags := by
  unfold getFiber; cases s.fibersPool <;> rfl

@[simp] theorem getFiber_nextTag (s : FM) :
    (getFiber s).2.nextTag = s.nextTag := by
  unfold getFiber; cases s.fibersPool <;> rfl

@[simp] theorem logStart_options (f : Fiber) (s : FM) :
    (logStart f s).options = s.options := by
  simp only [logStart]; split <;> split <;> rfl

@[simp] theorem logStart_ils (f : Fiber) (s : FM) :
    (logStart f s).isLoopScheduled = s.isLoopScheduled := by
  simp only [logStart]; split <;> split <;> rfl

@[simp] theorem logStart_ready (f : Fiber) (s : FM) :
    (logStart f s).readyFibers = s.readyFibers := by
  simp only [logStart]; split <;> split <;> rfl

@[simp] theorem logStart_pool (f : Fiber) (s : FM) :
    (logStart f s).fibersPool = s.fibersPool := by
  simp only [logStart]; split <;> split <;> rfl

@[simp] theorem logStart_awaiting (f : Fiber) (s : FM) :
    (logStart f s).awaitingFibers = s.awaitingFibers := by
  simp only [logStart]; split <;> split <;> rfl

@[simp] theorem logStart_rtq (f : Fiber) (s : FM) :
    (logStart f s).remoteTaskQueue = s.remoteTaskQueue := by
  simp only [logStart]; split <;> split <;> rfl

@[simp] theorem logStart_rrq (f : Fiber) (s : FM) :
    (logStart f s).remoteReadyQueue = s.remoteReadyQueue := by
  simp only [logStart]; split <;> split <;> rfl

@[simp] theorem logStart_nextTag (f : Fiber) (s : FM) :
    (logStart f s).nextTag = s.nextTag := by
  simp only [logStart]; split <;> split <;> rfl

@[simp] theorem applySpawns_options (sp : List (Prog × Nat)) (s : FM) :
    (applySpawns sp s).options = s.options := by
  induction sp generalizing s with
  | nil => rfl
  | cons a as ih =>
      obtain ⟨c, l⟩ := a
      unfold applySpawns
      rw [ih]; simp

@[simp] theorem applySpawns_ils (sp : List (Prog × Nat)) (s : FM) :
    (applySpawns sp s).isLoopScheduled = s.isLoopScheduled := by
  induction sp generalizing s with
  | nil => rfl
  | cons a as ih =>
      obtain ⟨c, l⟩ := a
      unfold applySpawns
      rw [ih]; simp

@[simp] theorem applySpawns_rtq (sp : List (Prog × Nat)) (s : FM) :
    (applySpawns sp s).remoteTaskQueue = s.remoteTaskQueue := by
  induction sp generalizing s with
  | nil => rfl
  | cons a as ih =>
      obtain ⟨c, l⟩ := a
      unfold applySpawns
      rw [ih]; simp

@[simp] theorem applySpawns_rrq (sp : List (Prog × Nat)) (s : FM) :
    (applySpawns sp s).remoteReadyQueue = s.remoteReadyQueue := by
  induction sp generalizing s with
  | nil => rfl
  | cons a as ih =>
      obtain ⟨c, l⟩ := a
      unfold applySpawns
      rw [ih]; simp

@[simp] theorem applySpawns_awaiting (sp : List (Prog × Nat)) (s : FM) :
    (applySpawns sp s).awaitingFibers = s.awaitingFibers := by
  induction sp generalizing s with
  | nil => rfl
  | cons a as ih =>
      obtain ⟨c, l⟩ := a
      unfold applySpawns
      rw [ih]; simp

@[simp] theorem applySpawns_nextTag (sp : List (Prog × Nat)) (s : FM) :
    (applySpawns sp s).nextTag = s.nextTag := by
  induction sp generalizing s with
  | nil => rfl
  | cons a as ih =>
      obtain ⟨c, l⟩ := a
      unfold applySpawns
      rw [ih]; simp

@[simp] theorem applyRemoteSpawns_options (sp : List (Prog × Nat)) (s : FM) :
    (applyRemoteSpawns sp s).options = s.options := rfl

@[simp] theorem applyRemoteSpawns_ils (sp : List (Prog × Nat)) (s : FM) :
    (applyRemoteSpawns sp s).isLoopScheduled = s.isLoopScheduled := rfl

@[simp] theorem applyRemoteSpawns_ready (sp : List (Prog × Nat)) (s : FM) :
    (applyRemoteSpawns sp s).readyFibers = s.readyFibers := rfl

@[simp] theorem applyRemoteSpawns_awaiting (sp : List (Prog × Nat)) (s : FM) :
    (applyRemoteSpawns sp s).awaitingFibers = s.awaitingFibers := rfl

@[simp] theorem applyRemoteSpawns_rrq (sp : List (Prog × Nat)) (s : FM) :
    (applyRemoteSpawns sp s).remoteReadyQueue = s.remoteReadyQueue := rfl

@[simp] theorem applyRemoteSpawns_nextTag (sp : List (Prog × Nat)) (s : FM) :
    (applyRemoteSpawns sp s).nextTag = s.nextTag := rfl

@[simp] theorem releaseFiber_options (f : Fiber) (s : FM) :
    (releaseFiber f s).options = s.options := by
  unfold releaseFiber; split <;> rfl

@[simp] theorem releaseFiber_ils (f : Fiber) (s : FM) :
    (releaseFiber f s).isLoopScheduled = s.isLoopScheduled := by
  unfold releaseFiber; split <;> rfl

@[simp] theorem releaseFiber_ready (f : Fiber) (s : FM) :
    (releaseFiber f s).readyFibers = s.readyFibers := by
  unfold releaseFiber; split <;> rfl

@[simp] theorem releaseFiber_awaiting (f : Fiber) (s : FM) :
    (releaseFiber f s).awaitingFibers = s.awaitingFibers := by
  unfold releaseFiber; split <;> rfl

@[simp] theorem releaseFiber_rtq (f : Fiber) (s : FM) :
    (releaseFiber f s).remoteTaskQueue = s.remoteTaskQueue := by
  unfold releaseFiber; split <;> rfl

@[simp] theorem releaseFiber_rrq (f : Fiber) (s : FM) :
    (releaseFiber f s).remoteReadyQueue = s.remoteReadyQueue := by
  unfold releaseFiber; split <;> rfl

@[simp] theorem releaseFiber_trace (f : Fiber) (s : FM) :
    (releaseFiber f s).trace = s.trace := by
  unfold releaseFiber; split <;> rfl

@[simp] theorem releaseFiber_started (f : Fiber) (s : FM) :
    (releaseFiber f s).startedTags = s.startedTags := by
  unfold releaseFiber; split <;> rfl

@[simp] theorem releaseFiber_nextTag (f : Fiber) (s : FM) :
    (releaseFiber f s).nextTag = s.nextTag := by
  unfold releaseFiber; split <;> rfl

@[simp] theorem completeFiber_options (f : Fiber) (t : Try) (s : FM) :
    (completeFiber f t s).options = s.options := by
  simp only [completeFiber]
  rw [releaseFiber_options]
  split
  · rfl
  · split <;> rfl

@[simp] theorem completeFiber_ils (f : Fiber) (t : Try) (s : FM) :
    (completeFiber f t s).isLoopScheduled = s.isLoopScheduled := by
  simp only [completeFiber]
  rw [releaseFiber_ils]
  split
  · rfl
  · split <;> rfl

@[simp] theorem completeFiber_ready (f : Fiber) (t : Try) (s : FM) :
    (completeFiber f t s).readyFibers = s.readyFibers := by
  simp only [completeFiber]
  rw [releaseFiber_ready]
  split
  · rfl
  · split <;> rfl

@[simp] theorem completeFiber_awaiting (f : Fiber) (t : Try) (s : FM) :
    (completeFiber f t s).awaitingFibers = s.awaitingFibers := by
  simp only [completeFiber]
  rw [releaseFiber_awaiting]
  split
  · rfl
  · split <;> rfl

@[simp] theorem completeFiber_rtq (f : Fiber) (t : Try) (s : FM) :
    (completeFiber f t s).remoteTaskQueue = s.remoteTaskQueue := by
  simp only [completeFiber]
  rw [releaseFiber_rtq]
  split
  · rfl
  · split <;> rfl

@[simp] theorem completeFiber_rrq (f : Fiber) (t : Try) (s : FM) :
    (completeFiber f t s).remoteReadyQueue = s.remoteReadyQueue := by
  simp only [completeFiber]
  rw [releaseFiber_rrq]
  split
  · rfl
  · split <;> rfl

@[simp] theorem completeFiber_started (f : Fiber) (t : Try) (s : FM) :
    (completeFiber f t s).startedTags = s.startedTags := by
  simp only [completeFiber]
  rw [releaseFiber_started]
  split
  · rfl
  · split <;> rfl

@[simp] theorem completeFiber_nextTag (f : Fiber) (t : Try) (s : FM) :
    (completeFiber f t s).nextTag = s.nextTag := by
  simp only [completeFiber]
  rw [releaseFiber_nextTag]
  split
  · rfl
  · split <;> rfl

@[simp] theorem promoteRemoteTasks_options (ts : List RemoteTask) (s : FM) :
    (promoteRemoteTasks ts s).options = s.options := by
  induction ts generalizing s with
  | nil => rfl
  | cons a as ih =>
      unfold promoteRemoteTasks
      rw [ih]; simp

@[simp] theorem promoteRemoteTasks_ilsF (ts : List RemoteTask) (s : FM) :
    (promoteRemoteTasks ts s).isLoopScheduled = s.isLoopScheduled := by
  induction ts generalizing s with
  | nil => rfl
  | cons a as ih =>
      unfold promoteRemoteTasks
      rw [ih]; simp

@[simp] theorem promoteRemoteTasks_rtq (ts : List RemoteTask) (s : FM) :
    (promoteRemoteTasks ts s).remoteTaskQueue = s.remoteTaskQueue := by
  induction ts generalizing s with
  | nil => rfl
  | cons a as ih =>
      unfold promoteRemoteTasks
      rw [ih]; simp

@[simp] theorem promoteRemoteTasks_rrq (ts : List RemoteTask) (s : FM) :
    (promoteRemoteTasks ts s).remoteReadyQueue = s.remoteReadyQueue := by
  induction ts generalizing s with
  | nil => rfl
  | cons a as ih =>
      unfold promoteRemoteTasks
      rw [ih]; simp

@[simp] theorem promoteRemoteTasks_awaiting (ts : List RemoteTask) (s : FM) :
    (promoteRemoteTasks ts s).awaitingFibers = s.awaitingFibers := by
  induction ts generalizing s with
  | nil => rfl
  | cons a as ih =>
      unfold promoteRemoteTasks
      rw [ih]; simp

@[simp] theorem promoteRemoteTasks_nextTag (ts : List RemoteTask) (s : FM) :
    (promoteRemoteTasks ts s).nextTag = s.nextTag := by
  induction ts generalizing s with
  | nil => rfl
  | cons a as ih =>
      unfold promoteRemoteTasks
      rw [ih]; simp

/-- `runReadyFiber` written without the intermediate `let`s (the two
`activeFiber` writes collapse: the state seen by the post-switchOut handlers
has `activeFiber = none`). -/
theorem runReadyFiber_eq (f : Fiber) (s : FM) :
    runReadyFiber f s =
      match (runProg f.prog f.pendingVal f.localData).outcome with
      | .completed t => completeFiber f t
          (applyRemoteSpawns (runProg f.prog f.pendingVal f.localData).remoteSpawns
            (applySpawns (runProg f.prog f.pendingVal f.localData).localSpawns
              { logStart f s with activeFiber := none }))
      | .awaiting k => suspendFiber f k
          (runProg f.prog f.pendingVal f.localData).localData
          (applyRemoteSpawns (runProg f.prog f.pendingVal f.localData).remoteSpawns
            (applySpawns (runProg f.prog f.pendingVal f.localData).localSpawns
              { logStart f s with activeFiber := none }))
      | .yielded v k => yieldFiber f v k
          (runProg f.prog f.pendingVal f.localData).localData
          (applyRemoteSpawns (runProg f.prog f.pendingVal f.localData).remoteSpawns
            (applySpawns (runProg f.prog f.pendingVal f.localData).localSpawns
              { logStart f s with activeFiber := none })) := rfl

@[simp] theorem runReadyFiber_options (f : Fiber) (s : FM) :
    (runReadyFiber f s).options = s.options := by
  rw [runReadyFiber_eq]
  cases (runProg f.prog f.pendingVal f.localData).outcome <;>
    simp [suspendFiber, yieldFiber]

@[simp] theorem runReadyFiber_ils (f : Fiber) (s : FM) :
    (runReadyFiber f s).isLoopScheduled = s.isLoopScheduled := by
  rw [runReadyFiber_eq]
  cases (runProg f.prog f.pendingVal f.localData).outcome <;>
    simp [suspendFiber, yieldFiber]

@[simp] theorem runReadyFiber_nextTag (f : Fiber) (s : FM) :
    (runReadyFiber f s).nextTag = s.nextTag := by
  rw [runReadyFiber_eq]
  cases (runProg f.prog f.pendingVal f.localData).outcome <;>
    simp [suspendFiber, yieldFiber]

@[simp] theorem drainRemoteTasks_rtq (s : FM) :
    (drainRemoteTasks s).remoteTaskQueue = [] := by
  unfold drainRemoteTasks
  rw [promoteRemoteTasks_rtq]

@[simp] theorem drainRemoteTasks_ils (s : FM) :
    (drainRemoteTasks s).isLoopScheduled = s.isLoopScheduled := by
  unfold drainRemoteTasks
  rw [promoteRemoteTasks_ilsF]

@[simp] theorem drainRemoteTasks_options (s : FM) :
    (drainRemoteTasks s).options = s.options := by
  unfold drainRemoteTasks
  rw [promoteRemoteTasks_options]

@[simp] theorem drainRemoteTasks_nextTag (s : FM) :
    (drainRemoteTasks s).nextTag = s.nextTag := by
  unfold drainRemoteTasks
  rw [promoteRemoteTasks_nextTag]

@[simp] theorem drainRemoteReady_rtq (s : FM) :
    (drainRemoteReady s).remoteTaskQueue = s.remoteTaskQueue := rfl

@[simp] theorem drainRemoteReady_rrq (s : FM) :
    (drainRemoteReady s).remoteReadyQueue = [] := rfl

@[simp] theorem drainRemoteReady_ils (s : FM) :
    (drainRemoteReady s).isLoopScheduled = s.isLoopScheduled := rfl

@[simp] theorem drainRemoteReady_options (s : FM) :
    (drainRemoteReady s).options = s.options := rfl

@[simp] theorem drainRemoteReady_nextTag (s : FM) :
    (drainRemoteReady s).nextTag = s.nextTag := rfl

/-! ### Invariant preservation through the loop internals -/

theorem wf_completeFiber (f : Fiber) (t : Try) (s : FM) (h : WFoff 1 s) :
    WF (completeFiber f t s) := by
  simp only [completeFiber]
  apply wf_releaseFiber
  split
  · exact wfoff_trace 1 _ _ (wfoff_trace 1 _ _ h)
  · split
    · exact wfoff_trace 1 _ _ (wfoff_trace 1 _ _ h)
    · exact wfoff_trace 1 _ _ h

theorem wf_suspendFiber (f : Fiber) (k : Prog) (ld : Nat) (s : FM)
    (h : WFoff 1 s) : WF (suspendFiber f k ld s) := by
  obtain ⟨h1, h2, h3, h4, h5⟩ := h
  refine ⟨h1, h2, h3, by simp [suspendFiber]; omega, ?_⟩
  intro g hg
  simp [suspendFiber] at hg
  rcases hg with hg | hg
  · exact h5 g hg
  · simp [hg]

theorem wf_yieldFiber (f : Fiber) (v : Nat) (k : Prog) (ld : Nat) (s : FM)
    (h : WFoff 1 s) : WF (yieldFiber f v k ld s) := by
  obtain ⟨h1, h2, h3, h4, h5⟩ := h
  exact ⟨h1, h2, h3, by simp [yieldFiber]; omega, by simpa [yieldFiber] using h5⟩

theorem wf_runReadyFiber (f : Fiber) (s : FM) (h : WFoff 1 s) :
    WF (runReadyFiber f s) := by
  have h3 : WFoff 1 (applyRemoteSpawns (runProg f.prog f.pendingVal
      f.localData).remoteSpawns (applySpawns (runProg f.prog f.pendingVal
      f.localData).localSpawns { logStart f s with activeFiber := none })) :=
    wfoff_applyRemoteSpawns 1 _ _ (wfoff_applySpawns 1 _ _
      (wfoff_activeFiber 1 none _ (wfoff_logStart 1 f s h)))
  rw [runReadyFiber_eq]
  cases (runProg f.prog f.pendingVal f.localData).outcome with
  | completed t => exact wf_completeFiber f t _ h3
  | awaiting k => exact wf_suspendFiber f k _ _ h3
  | yielded v k => exact wf_yieldFiber f v k _ _ h3

theorem wfoff_promoteRemoteTasks (c : Nat) :
    ∀ (ts : List RemoteTask) (s : FM), WFoff c s →
      WFoff c (promoteRemoteTasks ts s)
  | [], _, h => h
  | t :: ts, s, h => by
      unfold promoteRemoteTasks
      exact wfoff_promoteRemoteTasks c ts _ (wfoff_getFiber_ready c s
        (prepare (getFiber s).1 t.func (t.localData.getD 0) false t.tag) h)

theorem wfoff_drainRemoteTasks (c : Nat) (s : FM) (h : WFoff c s) :
    WFoff c (drainRemoteTasks s) := by
  apply wfoff_promoteRemoteTasks
  obtain ⟨h1, h2, h3, h4, h5⟩ := h
  exact ⟨h1, h2, h3, h4, h5⟩

theorem wfoff_drainRemoteReady (c : Nat) (s : FM) (h : WFoff c s) :
    WFoff c (drainRemoteReady s) := by
  obtain ⟨h1, h2, h3, h4, h5⟩ := h
  exact ⟨h1, h2, h3, by simp [drainRemoteReady]; omega,
    by simpa [drainRemoteReady] using h5⟩

/-- One unfolding step of the scheduler loop. -/
theorem loopGo_succ (fuel : Nat) (s : FM) :
    loopGo (fuel + 1) s =
      match (drainRemoteReady (drainRemoteTasks s)).readyFibers with
      | [] => some (drainRemoteReady (drainRemoteTasks s))
      | f :: rest => loopGo fuel (runReadyFiber f
          { drainRemoteReady (drainRemoteTasks s) with readyFibers := rest }) :=
  rfl

theorem wf_loopGo :
    ∀ (fuel : Nat) (s s2 : FM), WF s → loopGo fuel s = some s2 → WF s2
  | 0, _, _, _, h => by cases h
  | fuel + 1, s, s2, hwf, h => by
      rw [loopGo_succ] at h
      have hwf1 : WF (drainRemoteReady (drainRemoteTasks s)) :=
        wfoff_drainRemoteReady 0 _ (wfoff_drainRemoteTasks 0 _ hwf)
      revert h
      cases hr : (drainRemoteReady (drainRemoteTasks s)).readyFibers with
      | nil => intro h; cases h; exact hwf1
      | cons f rest =>
          intro h
          apply wf_loopGo fuel _ _ _ h
          apply wf_runReadyFiber
          obtain ⟨h1, h2, h3, h4, h5⟩ := hwf1
          refine ⟨h1, h2, h3, ?_, h5⟩
          rw [hr] at h4
          simp only [List.length_cons] at h4
          show (drainRemoteReady (drainRemoteTasks s)).fibersActive =
            (rest.length +
              (drainRemoteReady (drainRemoteTasks s)).awaitingFibers.length +
              (drainRemoteReady (drainRemoteTasks s)).remoteReadyQueue.length) + 1
          omega

/-- After a completed loop call the ready queue and both remote queues are
empty. -/
theorem loopGo_drained :
    ∀ (fuel : Nat) (s s2 : FM), loopGo fuel s = some s2 →
      s2.readyFibers = [] ∧ s2.remoteTaskQueue = [] ∧
      s2.remoteReadyQueue = []
  | 0, _, _, h => by cases h
  | fuel + 1, s, s2, h => by
      rw [loopGo_succ] at h
      revert h
      cases hr : (drainRemoteReady (drainRemoteTasks s)).readyFibers with
      | nil =>
          intro h
          cases h
          exact ⟨hr, by simp [drainRemoteReady], rfl⟩
      | cons f rest => exact fun h => loopGo_drained fuel _ _ h

theorem loopGo_ils :
    ∀ (fuel : Nat) (s s2 : FM), loopGo fuel s = some s2 →
      s2.isLoopScheduled = s.isLoopScheduled
  | 0, _, _, h => by cases h
  | fuel + 1, s, s2, h => by
      rw [loopGo_succ] at h
      revert h
      cases hr : (drainRemoteReady (drainRemoteTasks s)).readyFibers with
      | nil => intro h; cases h; simp
      | cons f rest =>
          intro h
          rw [loopGo_ils fuel _ _ h]
          simp

theorem loopGo_options :
    ∀ (fuel : Nat) (s s2 : FM), loopGo fuel s = some s2 →
      s2.options = s.options
  | 0, _, _, h => by cases h
  | fuel + 1, s, s2, h => by
      rw [loopGo_succ] at h
      revert h
      cases hr : (drainRemoteReady (drainRemoteTasks s)).readyFibers with
      | nil => intro h; cases h; simp
      | cons f rest =>
          intro h
          rw [loopGo_options fuel _ _ h]
          simp

theorem wfoff_setIls (c : Nat) (b : Bool) (s : FM) (h : WFoff c s) :
    WFoff c { s with isLoopScheduled := b } := by
  obtain ⟨h1, h2, h3, h4, h5⟩ := h
  exact ⟨h1, h2, h3, h4, h5⟩

theorem loopUntilNoReady_elim {fuel : Nat} {s : FM} {b : Bool} {s2 : FM}
    (h : loopUntilNoReady fuel s = some (b, s2)) :
    loopGo fuel { s with isLoopScheduled := false } = some s2 ∧
    b = decide (0 < s2.fibersActive) := by
  unfold loopUntilNoReady at h
  cases hl : loopGo fuel { s with isLoopScheduled := false } with
  | none => rw [hl] at h; cases h
  | some s3 =>
      rw [hl] at h
      simp only [Option.map_some', Option.some.injEq, Prod.mk.injEq] at h
      obtain ⟨hb, hs⟩ := h
      subst hs
      exact ⟨rfl, hb.symm⟩

theorem wf_loopUntilNoReady {fuel : Nat} {s : FM} {b : Bool} {s2 : FM}
    (hwf : WF s) (h : loopUntilNoReady fuel s = some (b, s2)) : WF s2 :=
  wf_loopGo fuel _ _ (wfoff_setIls 0 false s hwf) (loopUntilNoReady_elim h).1

theorem wf_applyOp (op : Op) (s s2 : FM) (hwf : WF s)
    (h : applyOp op s = some s2) : WF s2 := by
  cases op with
  | opAddTask p => cases h; exact wf_addTaskImpl p false s hwf
  | opAddTaskFinally p => cases h; exact wf_addTaskImpl p true s hwf
  | opAddTaskRemote p => cases h; exact wf_addTaskRemote p s hwf
  | opWake fid v => cases h; exact wf_remoteReadyInsert fid v s hwf
  | opLoop fuel =>
      simp only [applyOp] at h
      cases hl : loopUntilNoReady fuel s with
      | none => rw [hl] at h; cases h
      | some p =>
          rw [hl] at h
          cases h
          exact wf_loopUntilNoReady hwf hl

theorem wf_runOps :
    ∀ (ops : List Op) (s s2 : FM), WF s → runOps ops s = some s2 → WF s2
  | [], s, s2, hwf, h => by cases h; exact hwf
  | op :: ops, s, s2, hwf, h => by
      simp only [runOps] at h
      cases ha : applyOp op s with
      | none => rw [ha] at h; cases h
      | some s1 =>
          rw [ha] at h
          exact wf_runOps ops s1 s2 (wf_applyOp op s s1 hwf ha) h

theorem runOps_options :
    ∀ (ops : List Op) (s s2 : FM), runOps ops s = some s2 →
      s2.options = s.options
  | [], s, s2, h => by cases h; rfl
  | op :: ops, s, s2, h => by
      simp only [runOps] at h
      cases ha : applyOp op s with
      | none => rw [ha] at h; cases h
      | some s1 =>
          rw [ha] at h
          rw [runOps_options ops s1 s2 h]
          cases op with
          | opAddTask p =>
              cases ha
              simp [addTask, addTaskImpl]
          | opAddTaskFinally p =>
              cases ha
              simp [addTaskFinally, addTaskImpl]
          | opAddTaskRemote p => cases ha; rfl
          | opWake fid v =>
              cases ha
              unfold remoteReadyInsert
              cases remoteReadyInsert.removeById fid s.awaitingFibers <;> rfl
          | opLoop fuel =>
              simp only [applyOp] at ha
              cases hl : loopUntilNoReady fuel s with
              | none => rw [hl] at ha; cases ha
              | some p =>
                  rw [hl] at ha
                  cases ha
                  rw [loopGo_options _ _ _ (loopUntilNoReady_elim hl).1]

/-- On an engine whose ready queue and remote queues are all empty, the
drains at the top of a loop iteration change nothing. -/
theorem drain_id (s : FM) (h1 : s.remoteTaskQueue = [])
    (h2 : s.remoteReadyQueue = []) (h3 : s.readyFibers = []) :
    drainRemoteReady (drainRemoteTasks s) = s := by
  obtain ⟨o, rf, fp, aw, af, fa, fps, fac, ils, rtq, rrq, tr, st, ni, nt⟩ := s
  simp only at h1 h2 h3
  subst h1; subst h2; subst h3
  rfl

/-- A state with `isLoopScheduled` already `false` is unchanged by clearing
the flag. -/
theorem setIls_id (s : FM) (h : s.isLoopScheduled = false) :
    ({ s with isLoopScheduled := false } : FM) = s := by
  obtain ⟨o, rf, fp, aw, af, fa, fps, fac, ils, rtq, rrq, tr, st, ni, nt⟩ := s
  simp only at h
  subst h
  rfl

/-- C8 (amended): if `loopUntilNoReady` has just returned and no new work has
been submitted since, a second call (with at least one unit of fuel) leaves
the entire engine state unchanged and returns the same value as the first
call — `true` iff awaiting fibers remain; in particular it returns `false`
whenever the first call did. -/
theorem second_loop_call_noop (fuel1 : Nat) (s : FM) (b1 : Bool) (s1 : FM)
    (h : loopUntilNoReady fuel1 s = some (b1, s1)) (fuel2 : Nat) :
    loopUntilNoReady (fuel2 + 1) s1 = some (b1, s1) := by
  obtain ⟨hgo, hb⟩ := loopUntilNoReady_elim h
  obtain ⟨hready, hrtq, hrrq⟩ := loopGo_drained fuel1 _ _ hgo
  have hils : s1.isLoopScheduled = false := by
    rw [loopGo_ils fuel1 _ _ hgo]
  unfold loopUntilNoReady
  rw [setIls_id s1 hils, loopGo_succ, drain_id s1 hrtq hrrq hready, hready]
  simp [hb]

/-! ## Claim theorems and witnesses -/

/-- C1: for every sequence of public FiberManager operations (each ending
loop drain included), the counters satisfy
`fibersAllocated = fibersActive + fibersPoolSize`, and `fibersPoolSize`
never exceeds `options.maxFibersPoolSize` at the end of any public
operation. -/
theorem counters_invariant (opts : Options) (ops : List Op) (s : FM)
    (h : runOps ops (initFM opts) = some s) :
    s.fibersAllocated = s.fibersActive + s.fibersPoolSize ∧
    s.fibersPoolSize ≤ s.options.maxFibersPoolSize := by
  obtain ⟨h1, h2, h3, h4, h5⟩ := wf_runOps ops _ s (wf_initFM opts) h
  exact ⟨h1, h3⟩

def c1Ops : List Op :=
  [Op.opAddTask (Prog.ret 5), Op.opAddTaskRemote Prog.retAcc, Op.opLoop 4]

def c1State : FM := (runOps c1Ops (initFM {})).getD (initFM {})

theorem counters_invariant_witness :
    c1State.fibersAllocated = c1State.fibersActive + c1State.fibersPoolSize ∧
    c1State.fibersPoolSize ≤ c1State.options.maxFibersPoolSize :=
  counters_invariant {} c1Ops c1State (by decide)

/-- C2: a completed `loopUntilNoReady` call returns `true` if and only if, at
the moment the ready queue drains, at least one fiber owned by the scheduler
remains in the `Awaiting` state. -/
theorem loop_true_iff_awaiting (s : FM) (fuel : Nat) (b : Bool) (s2 : FM)
    (hwf : WF s) (h : loopUntilNoReady fuel s = some (b, s2)) :
    (b = true ↔ ∃ f ∈ ownedFibers s2, f.state = FiberState.Awaiting) := by
  obtain ⟨hgo, hb⟩ := loopUntilNoReady_elim h
  have hwf2 : WF s2 := wf_loopGo fuel _ _ (wfoff_setIls 0 false s hwf) hgo
  obtain ⟨h1, h2, h3, h4, h5⟩ := hwf2
  obtain ⟨hready, hrtq, hrrq⟩ := loopGo_drained fuel _ _ hgo
  rw [hready, hrrq] at h4
  simp only [List.length_nil, Nat.zero_add, Nat.add_zero] at h4
  rw [hb]
  unfold ownedFibers
  rw [hready, hrrq]
  simp only [List.nil_append, List.append_nil]
  constructor
  · intro hb0
    have hpos : 0 < s2.fibersActive := of_decide_eq_true hb0
    rw [h4] at hpos
    obtain ⟨g, hg⟩ :=
      List.exists_mem_of_ne_nil _ (List.ne_nil_of_length_pos hpos)
    exact ⟨g, hg, h5 g hg⟩
  · rintro ⟨f, hf, hst⟩
    apply decide_eq_true
    rw [h4]
    exact List.length_pos.mpr (List.ne_nil_of_mem hf)

def c2Start : FM := addTask (Prog.awaitOp Prog.retAcc) (initFM {})

def c2Final : FM := ((loopUntilNoReady 2 c2Start).getD (false, initFM {})).2

theorem loop_true_iff_awaiting_witness :
    WF c2Start ∧ loopUntilNoReady 2 c2Start = some (true, c2Final) ∧
    (true = true ↔ ∃ f ∈ ownedFibers c2Final,
      f.state = FiberState.Awaiting) :=
  ⟨⟨rfl, rfl, by decide, rfl, by decide⟩, by decide,
   loop_true_iff_awaiting c2Start 2 true c2Final
     ⟨rfl, rfl, by decide, rfl, by decide⟩ (by decide)⟩

def c8Start : FM := addTask (Prog.awaitOp Prog.retAcc) (initFM {})

def c8Mid : FM := ((loopUntilNoReady 2 c8Start).getD (false, initFM {})).2

/-- C8 counterexample: on an engine holding a single task that suspends via
`await` and is never woken, the first loop call leaves the fiber `Awaiting`
and returns `true`; a second call with no intervening work returns `true`
again — not `false` as the claim states — though the state is unchanged. -/
theorem second_loop_call_returns_true :
    loopUntilNoReady 2 c8Start = some (true, c8Mid) ∧
    loopUntilNoReady 2 c8Mid = some (true, c8Mid) ∧ (true ≠ false) :=
  ⟨by decide, by decide, by decide⟩

theorem second_loop_call_noop_witness :
    loopUntilNoReady 2 c8Start = some (true, c8Mid) ∧
    loopUntilNoReady 3 c8Mid = some (true, c8Mid) :=
  ⟨by decide, second_loop_call_noop 2 c8Start true c8Mid (by decide) 2⟩

/-- C9: `hasTasks()` returns true iff `fibersActive > 0` or at least one of
the two remote queues is non-empty. -/
theorem hasTasks_iff (s : FM) :
    hasTasks s = true ↔
      0 < s.fibersActive ∨ s.remoteTaskQueue ≠ [] ∨
        s.remoteReadyQueue ≠ [] := by
  unfold hasTasks
  simp
  tauto

/-- C10: on a thread with no FiberManager bound (null thread-local pointer),
the free function `onFiber()` returns `false` rather than failing. -/
theorem onFiber_no_manager : onFiber none = false := rfl

def c3Final (e : Nat) : FM :=
  ((loopUntilNoReady 3 (addTaskFinally (Prog.throwE e)
    (initFM {}))).getD (false, initFM {})).2

set_option maxHeartbeats 1000000 in
/-- C3: a task submitted via `addTaskFinally` whose functor throws has the
exception captured and delivered inside the `Try` passed to the finally
functor on the main context (`true` flag: no fiber was active), and the
manager's exception callback is not invoked for that task. -/
theorem finally_receives_exception (e : Nat) :
    loopUntilNoReady 3 (addTaskFinally (Prog.throwE e) (initFM {})) =
      some (false, c3Final e) ∧
    Event.finallyRun 0 (Try.exn e) true ∈ (c3Final e).trace ∧
    ∀ e2 : Nat, Event.exceptionCb 0 e2 ∉ (c3Final e).trace := by
  refine ⟨?_, ?_, ?_⟩ <;>
    simp [c3Final, loopUntilNoReady, loopGo, drainRemoteTasks,
    promoteRemoteTasks, drainRemoteReady, runReadyFiber, logStart, applySpawns,
    applyRemoteSpawns, completeFiber, suspendFiber, yieldFiber, releaseFiber,
    getFiber, prepare, addTask, addTaskFinally, addTaskImpl, initFM, runProg,
    remoteReadyInsert, remoteReadyInsert.removeById, hasActiveFiber]

def c4Mid : FM :=
  ((loopUntilNoReady 2 (addTask (Prog.awaitOp Prog.retAcc)
    (initFM {}))).getD (false, initFM {})).2

def c4Final (v : Nat) : FM :=
  ((loopUntilNoReady 2 (remoteReadyInsert 0 v c4Mid)).getD
    (false, initFM {})).2

set_option maxHeartbeats 1000000 in
/-- C4: `await` runs the wait function exactly once (the whole trace holds a
single `waitFnRun` event), on the main context, after the fiber has switched
out — the fiber is detached and `Awaiting` when `waitFnRun` happens — and it
is passed that suspended fiber; once the external waker fulfills the promise
with `v` and the engine resumes the fiber, `await` returns `v` (the resumed
task completes returning the awaited datum). -/
theorem await_contract (v : Nat) :
    loopUntilNoReady 2 (addTask (Prog.awaitOp Prog.retAcc) (initFM {})) =
      some (true, c4Mid) ∧
    c4Mid.trace = [Event.taskStart 0 none, Event.waitFnRun 0 true] ∧
    (∃ f ∈ c4Mid.awaitingFibers, f.id = 0 ∧ f.state = FiberState.Awaiting ∧
      f.prog = Prog.retAcc) ∧
    loopUntilNoReady 2 (remoteReadyInsert 0 v c4Mid) =
      some (false, c4Final v) ∧
    (c4Final v).trace = [Event.taskStart 0 none, Event.waitFnRun 0 true,
      Event.taskComplete 0 (Try.val v)] := by
  refine ⟨?_, ?_, ?_, ?_, ?_⟩ <;>
    simp [c4Mid, c4Final, loopUntilNoReady, loopGo, drainRemoteTasks,
    promoteRemoteTasks, drainRemoteReady, runReadyFiber, logStart, applySpawns,
    applyRemoteSpawns, completeFiber, suspendFiber, yieldFiber, releaseFiber,
    getFiber, prepare, addTask, addTaskFinally, addTaskImpl, initFM, runProg,
    remoteReadyInsert, remoteReadyInsert.removeById, hasActiveFiber]

def c5Final (v : Nat) : FM :=
  ((loopUntilNoReady 3 (addTask (Prog.runInMain v Prog.retAcc)
    (initFM {}))).getD (false, initFM {})).2

set_option maxHeartbeats 1000000 in
/-- C5: `runInMainContext` invoked while not inside a fiber (no manager
bound, or a manager with no active fiber) runs the function directly —
observing `onFiber() = false` — and returns its value; invoked on a fiber it
runs the function on the main context with no active fiber observable
(`false` flag in the `mainFnRun` event), returns its value `v` to the fiber,
and the fiber continues (here: completes returning that value). -/
theorem runInMainContext_contract :
    (∀ (s : FM) (func : Bool → Nat), hasActiveFiber s = false →
        runInMainContextDirect (some s) func = func false) ∧
    (∀ func : Bool → Nat, runInMainContextDirect none func = func false) ∧
    (∀ v : Nat,
      loopUntilNoReady 3 (addTask (Prog.runInMain v Prog.retAcc)
          (initFM {})) = some (false, c5Final v) ∧
      (c5Final v).trace = [Event.taskStart 0 none, Event.mainFnRun 0 v false,
        Event.taskComplete 0 (Try.val v)]) := by
  refine ⟨?_, ?_, ?_⟩
  · intro s func h
    show func (hasActiveFiber s) = func false
    rw [h]
  · intro func
    rfl
  · intro v
    refine ⟨?_, ?_⟩ <;>
      simp [c5Final, loopUntilNoReady, loopGo, drainRemoteTasks,
    promoteRemoteTasks, drainRemoteReady, runReadyFiber, logStart, applySpawns,
    applyRemoteSpawns, completeFiber, suspendFiber, yieldFiber, releaseFiber,
    getFiber, prepare, addTask, addTaskFinally, addTaskImpl, initFM, runProg,
    remoteReadyInsert, remoteReadyInsert.removeById, hasActiveFiber]

theorem runInMainContext_contract_witness :
    runInMainContextDirect (some (initFM {})) (fun x => 5) = 5 :=
  runInMainContext_contract.1 (initFM {}) (fun x => 5) rfl

def c6Final (a b : Nat) : FM :=
  ((loopUntilNoReady 6 (addTask
    (Prog.setLocalOp a (Prog.spawnOp (Prog.readLocal Prog.retAcc)
      (Prog.spawnRemoteOp (Prog.readLocal Prog.retAcc)
        (Prog.setLocalOp b (Prog.ret 0))))) (initFM {}))).getD
    (false, initFM {})).2

set_option maxHeartbeats 1000000 in
/-- C6: a child task submitted from a fiber — via `addTask` (task id 1) or
`addTaskRemote` (task id 2) — receives a copy of the parent's fiber-local
data taken at the moment of submission (`a`); the parent's later mutation to
`b` is not visible to either child: both children read `a`, whatever `b`
is. -/
theorem child_local_data_snapshot (a b : Nat) :
    loopUntilNoReady 6 (addTask
      (Prog.setLocalOp a (Prog.spawnOp (Prog.readLocal Prog.retAcc)
        (Prog.spawnRemoteOp (Prog.readLocal Prog.retAcc)
          (Prog.setLocalOp b (Prog.ret 0))))) (initFM {})) =
      some (false, c6Final a b) ∧
    Event.taskComplete 1 (Try.val a) ∈ (c6Final a b).trace ∧
    Event.taskComplete 2 (Try.val a) ∈ (c6Final a b).trace := by
  refine ⟨?_, ?_, ?_⟩ <;>
    simp [c6Final, loopUntilNoReady, loopGo, drainRemoteTasks,
    promoteRemoteTasks, drainRemoteReady, runReadyFiber, logStart, applySpawns,
    applyRemoteSpawns, completeFiber, suspendFiber, yieldFiber, releaseFiber,
    getFiber, prepare, addTask, addTaskFinally, addTaskImpl, initFM, runProg,
    remoteReadyInsert, remoteReadyInsert.removeById, hasActiveFiber]

/-! ## Start order of remote-submitted tasks (C7)

A task submitted through the public `addTaskRemote` carries a submission
tag; the tag is moved to `startedTags` at the task's first `switchIn` and
cleared from the fiber.  `startOrder` lists the tags in the order the
scheduler will start them. -/

def readyTags (s : FM) : List Nat := s.readyFibers.filterMap Fiber.tag

def remoteTags (s : FM) : List Nat :=
  s.remoteTaskQueue.filterMap RemoteTask.tag

def remoteReadyTags (s : FM) : List Nat :=
  s.remoteReadyQueue.filterMap Fiber.tag

/-- The submission tags of publicly remote-submitted tasks, in the order the
scheduler will start them: already-started first, then the ready queue, then
the remote task queue, then the woken queue (woken fibers have already
started, so they carry no tag). -/
def startOrder (s : FM) : List Nat :=
  s.startedTags ++ readyTags s ++ remoteTags s ++ remoteReadyTags s

@[simp] theorem applySpawns_started (sp : List (Prog × Nat)) (s : FM) :
    (applySpawns sp s).startedTags = s.startedTags := by
  induction sp generalizing s with
  | nil => rfl
  | cons a as ih =>
      obtain ⟨c, l⟩ := a
      unfold applySpawns
      rw [ih]; simp

@[simp] theorem promoteRemoteTasks_started (ts : List RemoteTask) (s : FM) :
    (promoteRemoteTasks ts s).startedTags = s.startedTags := by
  induction ts generalizing s with
  | nil => rfl
  | cons a as ih =>
      unfold promoteRemoteTasks
      rw [ih]; simp

@[simp] theorem applySpawns_readyTagsF (sp : List (Prog × Nat)) (s : FM) :
    (applySpawns sp s).readyFibers.filterMap Fiber.tag =
      s.readyFibers.filterMap Fiber.tag := by
  induction sp generalizing s with
  | nil => rfl
  | cons a as ih =>
      obtain ⟨c, l⟩ := a
      unfold applySpawns
      rw [ih]
      rw [getFiber_ready, List.filterMap_append]
      simp [prepare, List.filterMap_cons]

@[simp] theorem promote_readyTagsF (ts : List RemoteTask) (s : FM) :
    (promoteRemoteTasks ts s).readyFibers.filterMap Fiber.tag =
      s.readyFibers.filterMap Fiber.tag ++ ts.filterMap RemoteTask.tag := by
  induction ts generalizing s with
  | nil => simp [promoteRemoteTasks]
  | cons t ts ih =>
      unfold promoteRemoteTasks
      rw [ih]
      rw [getFiber_ready, List.filterMap_append]
      cases ht : t.tag <;>
        simp [prepare, List.filterMap_cons, ht, List.append_assoc]

@[simp] theorem applyRemoteSpawns_rtqTagsF (sp : List (Prog × Nat)) (s : FM) :
    (applyRemoteSpawns sp s).remoteTaskQueue.filterMap RemoteTask.tag =
      s.remoteTaskQueue.filterMap RemoteTask.tag := by
  unfold applyRemoteSpawns
  show (s.remoteTaskQueue ++ _).filterMap RemoteTask.tag = _
  rw [List.filterMap_append]
  have hnone : ∀ l : List (Prog × Nat),
      (l.map (fun cl : Prog × Nat =>
        (⟨none, cl.1, some cl.2⟩ : RemoteTask))).filterMap RemoteTask.tag
        = [] := by
    intro l
    induction l with
    | nil => rfl
    | cons a as ih => simp [List.filterMap_cons, ih]
  rw [hnone]
  simp

@[simp] theorem applyRemoteSpawns_started (sp : List (Prog × Nat)) (s : FM) :
    (applyRemoteSpawns sp s).startedTags = s.startedTags := rfl

@[simp] theorem logStart_started (f : Fiber) (s : FM) :
    (logStart f s).startedTags = s.startedTags ++ f.tag.toList := by
  unfold logStart
  cases ht : f.tag <;> split <;> simp [ht]

theorem runReadyFiber_startOrder (f : Fiber) (s : FM) :
    startOrder (runReadyFiber f s) =
      s.startedTags ++ f.tag.toList ++ readyTags s ++ remoteTags s ++
        remoteReadyTags s := by
  rw [runReadyFiber_eq]
  cases (runProg f.prog f.pendingVal f.localData).outcome with
  | completed t =>
      unfold startOrder readyTags remoteTags remoteReadyTags
      rw [completeFiber_started, completeFiber_ready, completeFiber_rtq,
        completeFiber_rrq]
      simp [List.append_assoc]
  | awaiting k =>
      unfold startOrder readyTags remoteTags remoteReadyTags suspendFiber
      simp [List.append_assoc]
  | yielded v k =>
      unfold startOrder readyTags remoteTags remoteReadyTags yieldFiber
      simp [List.filterMap_append, List.filterMap_cons, List.append_assoc]

theorem drain_startOrder (s : FM) :
    startOrder (drainRemoteReady (drainRemoteTasks s)) = startOrder s := by
  unfold startOrder readyTags remoteTags remoteReadyTags drainRemoteReady
    drainRemoteTasks
  simp [List.filterMap_append, List.append_assoc]

theorem loopGo_startOrder :
    ∀ (fuel : Nat) (s s2 : FM), loopGo fuel s = some s2 →
      s2.startedTags = startOrder s
  | 0, _, _, h => by cases h
  | fuel + 1, s, s2, h => by
      rw [loopGo_succ] at h
      revert h
      cases hr : (drainRemoteReady (drainRemoteTasks s)).readyFibers with
      | nil =>
          intro h
          cases h
          rw [← drain_startOrder s]
          unfold startOrder readyTags remoteTags remoteReadyTags
          rw [hr]
          simp
      | cons f rest =>
          intro h
          rw [loopGo_startOrder fuel _ _ h, runReadyFiber_startOrder,
            ← drain_startOrder s]
          unfold startOrder readyTags remoteTags remoteReadyTags
          rw [hr]
          cases htag : f.tag <;>
            simp [List.filterMap_cons, htag, List.append_assoc]

/-- C7: two tasks submitted in order through the public `addTaskRemote` (one
submitter; the queue is FIFO) are started by the engine in submission order:
in the start order observed over any completed loop, the first task's tag
(`s.nextTag`) immediately precedes the second's (`s.nextTag + 1`). -/
theorem remote_tasks_start_fifo (s : FM) (p1 p2 : Prog) (fuel : Nat)
    (b : Bool) (s2 : FM)
    (h : loopUntilNoReady fuel (addTaskRemote p2 (addTaskRemote p1 s)) =
      some (b, s2)) :
    ∃ l r : List Nat,
      s2.startedTags = l ++ s.nextTag :: (s.nextTag + 1) :: r := by
  obtain ⟨hgo, hb⟩ := loopUntilNoReady_elim h
  have hso := loopGo_startOrder fuel _ _ hgo
  refine ⟨s.startedTags ++ readyTags s ++ remoteTags s, remoteReadyTags s, ?_⟩
  rw [hso]
  unfold startOrder readyTags remoteTags remoteReadyTags addTaskRemote
  simp [List.filterMap_append, List.filterMap_cons, List.append_assoc]

def c7Final : FM :=
  ((loopUntilNoReady 4 (addTaskRemote (Prog.ret 4) (addTaskRemote (Prog.ret 3)
    (initFM {})))).getD (false, initFM {})).2

theorem remote_tasks_start_fifo_witness :
    ∃ l r : List Nat, c7Final.startedTags = l ++ 0 :: 1 :: r :=
  remote_tasks_start_fifo (initFM {}) (Prog.ret 3) (Prog.ret 4) 4 false
    c7Final (by decide)

end FollyFibers
